import Mathlib

/-!
Verification of `app_text_emotion.py` (repository `Emotion_app`).

The program is a single-page Streamlit app.  Its logically interesting
surface is embedded here shallowly:

* Python strings are modelled as `List Char` (a Python `str` is a
  sequence of Unicode code points).
* Scores (`float` values in `[0,1]`) are modelled as `ℚ`; the textual
  rendering produced by `str`/`json.dumps` is modelled as the decimal
  expansion of the rational (`decToString`).
* The prediction-log file is modelled by its contents, an
  `Option (List Char)` (`none` = the file does not exist).
* `pandas.DataFrame.to_csv` with the default `QUOTE_MINIMAL` quoting is
  modelled by `csvRow`; `pandas.read_csv` by the CSV grammar parser
  `parseCsv`; `json.dumps` of the score list by `jsonScores` and
  `json.loads` by `parseScores`.
* The Streamlit button handlers become pure state-transition functions
  (`predictAction`, `clearAction`) on the file state.
-/

/-! ## Decimal digit strings -/

/-- Character for the decimal digit `d % 10`. -/
def digitChar (d : ℕ) : Char := Char.ofNat (48 + d % 10)

/-- Numeric value of a decimal digit character. -/
def digitVal (c : Char) : ℕ := c.toNat - 48

/-- Big-endian digit characters of `n`; `fuel` bounds the recursion and
`natToChars` always supplies enough of it. -/
def natToCharsAux : ℕ → ℕ → List Char
  | 0, _ => []
  | f + 1, n => if n = 0 then [] else natToCharsAux f (n / 10) ++ [digitChar (n % 10)]

/-- Decimal digit string of a natural number, as `str` renders it. -/
def natToChars (n : ℕ) : List Char := if n = 0 then ['0'] else natToCharsAux n n

/-- Value of a big-endian digit string, accumulator form. -/
def charsToNatAux : ℕ → List Char → ℕ
  | acc, [] => acc
  | acc, c :: cs => charsToNatAux (acc * 10 + digitVal c) cs

/-- Value of a big-endian digit string. -/
def charsToNat (cs : List Char) : ℕ := charsToNatAux 0 cs

theorem charsToNatAux_nil (acc : ℕ) : charsToNatAux acc [] = acc := rfl

theorem charsToNatAux_cons (acc : ℕ) (c : Char) (cs : List Char) :
    charsToNatAux acc (c :: cs) = charsToNatAux (acc * 10 + digitVal c) cs := rfl

theorem natToCharsAux_fuel_zero (n : ℕ) : natToCharsAux 0 n = [] := rfl

theorem natToCharsAux_fuel_succ (f n : ℕ) :
    natToCharsAux (f + 1) n
      = if n = 0 then [] else natToCharsAux f (n / 10) ++ [digitChar (n % 10)] := rfl

theorem digitVal_digitChar (d : ℕ) : digitVal (digitChar d) = d % 10 := by
  have h : d % 10 < 10 := Nat.mod_lt _ (by norm_num)
  simp only [digitChar, digitVal]
  generalize d % 10 = m at h ⊢
  interval_cases m <;> decide

theorem isDigit_digitChar (d : ℕ) : (digitChar d).isDigit = true := by
  have h : d % 10 < 10 := Nat.mod_lt _ (by norm_num)
  simp only [digitChar]
  generalize d % 10 = m at h ⊢
  interval_cases m <;> decide

theorem charsToNatAux_acc (cs : List Char) :
    ∀ acc : ℕ, charsToNatAux acc cs = acc * 10 ^ cs.length + charsToNatAux 0 cs := by
  induction cs with
  | nil => intro acc; rw [charsToNatAux_nil, charsToNatAux_nil]; simp
  | cons c cs ih =>
    intro acc
    rw [charsToNatAux_cons, ih (acc * 10 + digitVal c)]
    rw [charsToNatAux_cons 0, ih (0 * 10 + digitVal c), List.length_cons, pow_succ]
    ring

theorem charsToNat_append (xs ys : List Char) :
    charsToNat (xs ++ ys) = charsToNat xs * 10 ^ ys.length + charsToNat ys := by
  induction xs with
  | nil => simp [charsToNat, charsToNatAux_nil]
  | cons c cs ih =>
    simp only [charsToNat] at *
    rw [List.cons_append, charsToNatAux_cons, charsToNatAux_acc, ih]
    rw [charsToNatAux_cons 0, charsToNatAux_acc cs (0 * 10 + digitVal c)]
    rw [List.length_append, pow_add]
    ring

theorem natToCharsAux_zero (f : ℕ) : natToCharsAux f 0 = [] := by
  cases f
  · rfl
  · rw [natToCharsAux_fuel_succ, if_pos rfl]

theorem charsToNat_natToCharsAux (f : ℕ) :
    ∀ n : ℕ, n ≤ f → 0 < n → charsToNat (natToCharsAux f n) = n := by
  induction f with
  | zero => intro n h1 h2; omega
  | succ f ih =>
    intro n h1 h2
    rw [natToCharsAux_fuel_succ, if_neg (by omega), charsToNat_append]
    have hd : charsToNat [digitChar (n % 10)] = n % 10 := by
      simp [charsToNat, charsToNatAux_cons, charsToNatAux_nil, digitVal_digitChar]
    rw [hd]
    by_cases h10 : n < 10
    · have hz : n / 10 = 0 := by omega
      rw [hz, natToCharsAux_zero]
      simp [charsToNat, charsToNatAux_nil]
      omega
    · rw [ih (n / 10) (by omega) (by omega)]
      simp
      omega

theorem charsToNat_natToChars (n : ℕ) : charsToNat (natToChars n) = n := by
  by_cases h : n = 0
  · subst h; decide
  · rw [natToChars, if_neg h]
    exact charsToNat_natToCharsAux n n le_rfl (Nat.pos_of_ne_zero h)

theorem mem_natToCharsAux_isDigit (f : ℕ) :
    ∀ n c, c ∈ natToCharsAux f n → c.isDigit = true := by
  induction f with
  | zero => intro n c h; rw [natToCharsAux_fuel_zero] at h; simp at h
  | succ f ih =>
    intro n c h
    rw [natToCharsAux_fuel_succ] at h
    by_cases hn : n = 0
    · rw [if_pos hn] at h; simp at h
    · rw [if_neg hn] at h
      rcases List.mem_append.mp h with h1 | h2
      · exact ih _ _ h1
      · simp at h2; subst h2; exact isDigit_digitChar _

theorem mem_natToChars_isDigit (n : ℕ) :
    ∀ c ∈ natToChars n, c.isDigit = true := by
  intro c h
  by_cases hn : n = 0
  · subst hn; simp [natToChars] at h; subst h; decide
  · rw [natToChars, if_neg hn] at h
    exact mem_natToCharsAux_isDigit n n c h

/-! ## Decimal rendering and parsing of scores

A score is a `float` in the source; it is modelled as a nonnegative
rational with a finite decimal expansion (`isDec`).  `decToString`
renders its decimal expansion, modelling how `str`/`json.dumps` and
`pandas.to_csv` print the float; `parseNumChars` parses a decimal
literal back, modelling how `pandas.read_csv`/`json.loads` read it. -/

/-- Longest digit run at the head of the input, and the remainder. -/
def spanDigits : List Char → List Char × List Char
  | [] => ([], [])
  | c :: cs =>
    if c.isDigit then ((c :: (spanDigits cs).1), (spanDigits cs).2) else ([], c :: cs)

theorem spanDigits_nil : spanDigits [] = ([], []) := rfl

theorem spanDigits_cons (c : Char) (cs : List Char) :
    spanDigits (c :: cs)
      = if c.isDigit then ((c :: (spanDigits cs).1), (spanDigits cs).2) else ([], c :: cs) := rfl

theorem spanDigits_append (xs ys : List Char)
    (hxs : ∀ c ∈ xs, c.isDigit = true)
    (hys : ∀ c, ys.head? = some c → c.isDigit = false) :
    spanDigits (xs ++ ys) = (xs, ys) := by
  induction xs with
  | nil =>
    simp only [List.nil_append]
    cases ys with
    | nil => rfl
    | cons c cs =>
      rw [spanDigits_cons, if_neg]
      simp [hys c rfl]
  | cons c cs ih =>
    rw [List.cons_append, spanDigits_cons, if_pos (hxs c (by simp))]
    rw [ih (fun x hx => hxs x (by simp [hx]))]

/-- Parse a decimal number (digits, optionally a dot and more digits)
from the head of the input; returns its rational value and the rest. -/
def parseNumChars (cs : List Char) : Option (ℚ × List Char) :=
  let p := spanDigits cs
  if p.1 = [] then none
  else if p.2.head? = some '.' then
    let q := spanDigits p.2.tail
    if q.1 = [] then none
    else some (mkRat (charsToNat p.1 * 10 ^ q.1.length + charsToNat q.1 : ℕ) (10 ^ q.1.length), q.2)
  else some (mkRat (charsToNat p.1) 1, p.2)

/-- Parse a decimal number that must span the whole input. -/
def parseNumAll (cs : List Char) : Option ℚ :=
  match parseNumChars cs with
  | some (q, []) => some q
  | _ => none

/-- Test whether a rational is a nonnegative finite decimal (at most 17
fractional digits), which is the shape of every rendered score. -/
def isDec (q : ℚ) : Bool :=
  decide (0 ≤ q) && (List.range 18).any (fun k => 10 ^ k % q.den == 0)

/-- Smallest tracked exponent `k` with `q.den ∣ 10 ^ k`. -/
def decExp (q : ℚ) : Option ℕ := (List.range 18).find? (fun k => 10 ^ k % q.den == 0)

/-- Decimal rendering of `q` with `k` fractional digits (`k = 0` renders
like Python `str` of an integral float, for instance `1.0`). -/
def decToStringK (q : ℚ) (k : ℕ) : List Char :=
  let n : ℕ := q.num.toNat * (10 ^ k / q.den)
  if k = 0 then natToChars n ++ ['.', '0']
  else
    let ds := natToChars n
    let padded := List.replicate (k + 1 - ds.length) '0' ++ ds
    padded.take (padded.length - k) ++ '.' :: padded.drop (padded.length - k)

/-- Decimal rendering of a score, as `str`/`json.dumps` print the
underlying float value. -/
def decToString (q : ℚ) : List Char :=
  match decExp q with
  | none => []
  | some k => decToStringK q k

theorem natToChars_ne_nil (n : ℕ) : natToChars n ≠ [] := by
  by_cases h : n = 0
  · subst h; simp [natToChars]
  · rw [natToChars, if_neg h]
    have hpos : 0 < n := Nat.pos_of_ne_zero h
    cases hf : n with
    | zero => omega
    | succ f =>
      rw [natToCharsAux_fuel_succ, if_neg (by omega)]
      simp

theorem charsToNat_replicate_zero (z : ℕ) :
    charsToNat (List.replicate z '0') = 0 := by
  induction z with
  | zero => rfl
  | succ z ih =>
    rw [List.replicate_succ, charsToNat, charsToNatAux_cons]
    have h : 0 * 10 + digitVal '0' = 0 := by decide
    rw [h]
    exact ih

theorem mkRat_eq_of_mul (q : ℚ) (h0 : 0 ≤ q) (k m : ℕ) (hm : 10 ^ k = q.den * m) :
    mkRat ((q.num.toNat * m : ℕ) : ℤ) (10 ^ k) = q := by
  have hm0 : m ≠ 0 := by
    rintro rfl
    rw [mul_zero] at hm
    have := pow_pos (show 0 < 10 by norm_num) k
    omega
  rw [Rat.mkRat_eq_div]
  have hc : ((10 : ℚ)) ^ k = (q.den : ℚ) * (m : ℚ) := by exact_mod_cast hm
  push_cast [Int.toNat_of_nonneg (Rat.num_nonneg.mpr h0)]
  rw [← Rat.mul_den_eq_num q, hc, mul_assoc]
  have hne : (q.den : ℚ) * (m : ℚ) ≠ 0 := by
    apply mul_ne_zero
    · exact_mod_cast q.den_nz
    · exact_mod_cast hm0
  exact mul_div_cancel_right₀ q hne

theorem decToStringK_ne_zero (q : ℚ) (k : ℕ) (h : k ≠ 0) :
    decToStringK q k =
      (List.replicate (k + 1 - (natToChars (q.num.toNat * (10 ^ k / q.den))).length) '0'
          ++ natToChars (q.num.toNat * (10 ^ k / q.den))).take
        ((List.replicate (k + 1 - (natToChars (q.num.toNat * (10 ^ k / q.den))).length) '0'
          ++ natToChars (q.num.toNat * (10 ^ k / q.den))).length - k)
      ++ '.' ::
      (List.replicate (k + 1 - (natToChars (q.num.toNat * (10 ^ k / q.den))).length) '0'
          ++ natToChars (q.num.toNat * (10 ^ k / q.den))).drop
        ((List.replicate (k + 1 - (natToChars (q.num.toNat * (10 ^ k / q.den))).length) '0'
          ++ natToChars (q.num.toNat * (10 ^ k / q.den))).length - k) := by
  simp only [decToStringK]
  rw [if_neg h]

theorem parseNumChars_decToString (q : ℚ) (hq : isDec q = true) (rest : List Char)
    (hrest : ∀ c, rest.head? = some c → c.isDigit = false) :
    parseNumChars (decToString q ++ rest) = some (q, rest) := by
  rw [isDec, Bool.and_eq_true] at hq
  obtain ⟨hq0, hqa⟩ := hq
  have h0 : (0 : ℚ) ≤ q := of_decide_eq_true hq0
  have hsome : (decExp q).isSome := by
    rw [decExp, List.find?_isSome]
    exact List.any_eq_true.mp hqa
  obtain ⟨k, hk⟩ := Option.isSome_iff_exists.mp hsome
  have hpk : 10 ^ k % q.den = 0 := by
    rw [decExp] at hk
    simpa using List.find?_some hk
  obtain ⟨m, hm⟩ := Nat.dvd_iff_mod_eq_zero.mpr hpk
  have hden_pos : 0 < q.den := q.pos
  have hquot : 10 ^ k / q.den = m := by
    rw [hm]
    exact Nat.mul_div_cancel_left m hden_pos
  have hds : decToString q = decToStringK q k := by
    unfold decToString
    rw [hk]
  rw [hds]
  by_cases hk0 : k = 0
  · -- integral value: rendered like `7.0`
    subst hk0
    have hden1 : q.den = 1 ∧ m = 1 := by
      rw [pow_zero] at hm
      have hd1 : q.den = 1 := Nat.dvd_one.mp ⟨m, hm⟩
      refine ⟨hd1, ?_⟩
      rw [hd1, one_mul] at hm
      omega
    have hdsk : decToStringK q 0 = natToChars (q.num.toNat * m) ++ ['.', '0'] := by
      rw [show decToStringK q 0
          = natToChars (q.num.toNat * (10 ^ 0 / q.den)) ++ ['.', '0'] from rfl, hquot]
    rw [hdsk, List.append_assoc]
    have hspan1 : spanDigits (natToChars (q.num.toNat * m) ++ (['.', '0'] ++ rest))
        = (natToChars (q.num.toNat * m), ['.', '0'] ++ rest) := by
      apply spanDigits_append
      · exact mem_natToChars_isDigit _
      · intro c hc
        simp at hc
        subst hc
        decide
    simp only [parseNumChars, hspan1]
    rw [if_neg (natToChars_ne_nil _)]
    have hhead : (['.', '0'] ++ rest).head? = some '.' := rfl
    rw [if_pos hhead]
    have htail : (['.', '0'] ++ rest).tail = ['0'] ++ rest := rfl
    rw [htail]
    have hspan2 : spanDigits (['0'] ++ rest) = (['0'], rest) := by
      apply spanDigits_append
      · intro c hc
        simp at hc
        subst hc
        decide
      · exact hrest
    rw [hspan2]
    dsimp only
    rw [if_neg (by simp : ¬([('0' : Char)] = []))]
    have hval : charsToNat (natToChars (q.num.toNat * m)) * 10 ^ ([('0' : Char)].length)
        + charsToNat ['0'] = q.num.toNat * (m * 10) := by
      rw [charsToNat_natToChars]
      have hz : charsToNat ['0'] = 0 := by decide
      rw [hz]
      simp
      ring
    rw [hval]
    have hexp : (10 : ℕ) ^ ([('0' : Char)].length) = 10 ^ 1 := rfl
    rw [hexp]
    rw [mkRat_eq_of_mul q h0 1 (m * 10) (by rw [hden1.1, hden1.2]; norm_num)]
  · -- at least one fractional digit
    have hk1 : 1 ≤ k := Nat.pos_of_ne_zero hk0
    rw [decToStringK_ne_zero q k hk0, hquot]
    set n := q.num.toNat * m with hn
    set ds := natToChars n with hds2
    set padded := List.replicate (k + 1 - ds.length) '0' ++ ds with hpad
    set L := padded.length with hL
    have hLval : L = (k + 1 - ds.length) + ds.length := by
      rw [hL, hpad, List.length_append, List.length_replicate]
    have hLk : k + 1 ≤ L := by omega
    set a := padded.take (L - k) with ha
    set b := padded.drop (L - k) with hb
    have hab : a ++ b = padded := List.take_append_drop _ _
    have hblen : b.length = k := by
      rw [hb, List.length_drop]
      omega
    have halen : a.length = L - k := by
      rw [ha, List.length_take]
      omega
    have hpdig : ∀ c ∈ padded, c.isDigit = true := by
      intro c hc
      rw [hpad] at hc
      rcases List.mem_append.mp hc with h1 | h2
      · have := List.eq_of_mem_replicate h1
        subst this
        decide
      · exact mem_natToChars_isDigit n c h2
    have hadig : ∀ c ∈ a, c.isDigit = true := fun c hc =>
      hpdig c (hab ▸ List.mem_append_left b hc)
    have hbdig : ∀ c ∈ b, c.isDigit = true := fun c hc =>
      hpdig c (hab ▸ List.mem_append_right a hc)
    have hane : a ≠ [] := by
      apply List.ne_nil_of_length_pos
      omega
    have hbne : b ≠ [] := by
      apply List.ne_nil_of_length_pos
      omega
    have hassoc : (a ++ '.' :: b) ++ rest = a ++ ('.' :: (b ++ rest)) := by
      simp [List.append_assoc]
    rw [hassoc]
    have hspan1 : spanDigits (a ++ ('.' :: (b ++ rest))) = (a, '.' :: (b ++ rest)) := by
      apply spanDigits_append a _ hadig
      intro c hc
      simp at hc
      subst hc
      decide
    simp only [parseNumChars, hspan1]
    rw [if_neg hane]
    have hhead2 : ('.' :: (b ++ rest)).head? = some '.' := rfl
    rw [if_pos hhead2]
    have htail : ('.' :: (b ++ rest)).tail = b ++ rest := rfl
    rw [htail]
    have hspan2 : spanDigits (b ++ rest) = (b, rest) := spanDigits_append b rest hbdig hrest
    rw [hspan2, if_neg hbne]
    have hval : charsToNat a * 10 ^ b.length + charsToNat b = n := by
      rw [← charsToNat_append, hab, hpad, charsToNat_append, charsToNat_replicate_zero]
      rw [hds2, charsToNat_natToChars]
      simp
    rw [hval, hblen]
    rw [mkRat_eq_of_mul q h0 k m hm]

/-! ## CSV encoding

Models `pandas.DataFrame.to_csv` with its defaults: fields joined by
commas, rows terminated by a newline, `QUOTE_MINIMAL` quoting (a field
is wrapped in double quotes exactly when it contains a comma, a double
quote, a newline or a carriage return; embedded quotes are doubled). -/

/-- Test whether QUOTE_MINIMAL must quote the field. -/
def needsQuote (s : List Char) : Bool :=
  s.any (fun c => c == ',' || c == '"' || c == '\n' || c == '\r')

/-- Double every embedded quote character. -/
def escQuotes : List Char → List Char
  | [] => []
  | c :: cs => if c = '"' then '"' :: '"' :: escQuotes cs else c :: escQuotes cs

theorem escQuotes_nil : escQuotes [] = [] := rfl

theorem escQuotes_cons (c : Char) (cs : List Char) :
    escQuotes (c :: cs)
      = if c = '"' then '"' :: '"' :: escQuotes cs else c :: escQuotes cs := rfl

/-- One CSV field as `to_csv` renders it. -/
def csvField (s : List Char) : List Char :=
  if needsQuote s then '"' :: (escQuotes s ++ ['"']) else s

/-- Fields of one record joined by commas. -/
def csvRowBody : List (List Char) → List Char
  | [] => []
  | [f] => csvField f
  | f :: fs => csvField f ++ ',' :: csvRowBody fs

/-- One CSV record including the terminating newline. -/
def csvRow (fs : List (List Char)) : List Char := csvRowBody fs ++ ['\n']

/-- Concatenation of rendered CSV records (the whole file). -/
def csvLines : List (List (List Char)) → List Char
  | [] => []
  | r :: rs => csvRow r ++ csvLines rs

theorem csvRowBody_single (f : List Char) : csvRowBody [f] = csvField f := rfl

theorem csvRowBody_cons (f g : List Char) (fs : List (List Char)) :
    csvRowBody (f :: g :: fs) = csvField f ++ ',' :: csvRowBody (g :: fs) := rfl

theorem csvLines_nil : csvLines [] = [] := rfl

theorem csvLines_cons (r : List (List Char)) (rs : List (List (List Char))) :
    csvLines (r :: rs) = csvRow r ++ csvLines rs := rfl

theorem csvLines_append (xs ys : List (List (List Char))) :
    csvLines (xs ++ ys) = csvLines xs ++ csvLines ys := by
  induction xs with
  | nil => simp [csvLines_nil]
  | cons r rs ih => rw [List.cons_append, csvLines_cons, csvLines_cons, ih, List.append_assoc]

/-! ## CSV parsing

Models the CSV grammar read back by `pandas.read_csv`: records are
newline-terminated, fields are comma-separated, a field starting with a
double quote extends (with doubled quotes un-escaped) to the matching
closing quote. -/

/-- Parse the remainder of a quoted field (the opening quote has been
consumed); returns the field and the input after the closing quote. -/
def parseQuotedF : List Char → Option (List Char × List Char)
  | [] => none
  | c :: rest =>
    if c = '"' then
      match rest with
      | [] => some ([], [])
      | c2 :: rest2 =>
        if c2 = '"' then
          match parseQuotedF rest2 with
          | some (f, r) => some ('"' :: f, r)
          | none => none
        else some ([], c2 :: rest2)
    else
      match parseQuotedF rest with
      | some (f, r) => some (c :: f, r)
      | none => none

/-- Parse an unquoted field: everything up to a comma or newline. -/
def parseUnquotedF : List Char → List Char × List Char
  | [] => ([], [])
  | c :: rest =>
    if c = ',' ∨ c = '\n' then ([], c :: rest)
    else ((c :: (parseUnquotedF rest).1), (parseUnquotedF rest).2)

/-- Parse one field, quoted or not. -/
def parseFieldF : List Char → Option (List Char × List Char)
  | [] => some ([], [])
  | c :: rest =>
    if c = '"' then parseQuotedF rest else some (parseUnquotedF (c :: rest))

/-- Parse one record: fields separated by commas, ended by a newline or
the end of input.  `fuel` bounds the number of fields. -/
def parseRecordAux : ℕ → List Char → Option (List (List Char) × List Char)
  | 0, _ => none
  | fuel + 1, cs =>
    match parseFieldF cs with
    | none => none
    | some (f, r) =>
      match r with
      | [] => some ([f], [])
      | c :: r2 =>
        if c = ',' then
          match parseRecordAux fuel r2 with
          | some (fs, r3) => some (f :: fs, r3)
          | none => none
        else if c = '\n' then some ([f], r2)
        else none

/-- Parse a sequence of records up to the end of input.  `fuel` bounds
the number of records. -/
def parseCsvAux : ℕ → List Char → Option (List (List (List Char)))
  | _, [] => some []
  | 0, _ :: _ => none
  | fuel + 1, c :: cs =>
    match parseRecordAux ((c :: cs).length + 1) (c :: cs) with
    | none => none
    | some (fs, r) =>
      match parseCsvAux fuel r with
      | some rs => some (fs :: rs)
      | none => none

/-- Parse a whole CSV file into its records, as `pandas.read_csv` reads
the log back. -/
def parseCsv (cs : List Char) : Option (List (List (List Char))) :=
  parseCsvAux (cs.length + 1) cs

theorem parseQuotedF_nil : parseQuotedF [] = none := rfl

theorem parseQuotedF_quote_nil : parseQuotedF ['"'] = some ([], []) := rfl

theorem parseQuotedF_quote_quote (r2 : List Char) :
    parseQuotedF ('"' :: '"' :: r2)
      = match parseQuotedF r2 with
        | some (f, r) => some ('"' :: f, r)
        | none => none := rfl

theorem parseQuotedF_quote_other (c2 : Char) (r2 : List Char) (h : c2 ≠ '"') :
    parseQuotedF ('"' :: c2 :: r2) = some ([], c2 :: r2) := by
  simp [parseQuotedF, h]

theorem parseQuotedF_not_quote (c : Char) (rest : List Char) (h : c ≠ '"') :
    parseQuotedF (c :: rest)
      = match parseQuotedF rest with
        | some (f, r) => some (c :: f, r)
        | none => none := by
  rw [parseQuotedF.eq_def]
  simp [h]

theorem parseUnquotedF_nil : parseUnquotedF [] = ([], []) := rfl

theorem parseUnquotedF_cons (c : Char) (rest : List Char) :
    parseUnquotedF (c :: rest)
      = if c = ',' ∨ c = '\n' then ([], c :: rest)
        else ((c :: (parseUnquotedF rest).1), (parseUnquotedF rest).2) := rfl

theorem parseFieldF_nil : parseFieldF [] = some ([], []) := rfl

theorem parseFieldF_cons (c : Char) (rest : List Char) :
    parseFieldF (c :: rest)
      = if c = '"' then parseQuotedF rest else some (parseUnquotedF (c :: rest)) := rfl

theorem parseRecordAux_fuel_zero (cs : List Char) : parseRecordAux 0 cs = none := rfl

theorem parseRecordAux_fuel_succ (fuel : ℕ) (cs : List Char) :
    parseRecordAux (fuel + 1) cs
      = match parseFieldF cs with
        | none => none
        | some (f, r) =>
          match r with
          | [] => some ([f], [])
          | c :: r2 =>
            if c = ',' then
              match parseRecordAux fuel r2 with
              | some (fs, r3) => some (f :: fs, r3)
              | none => none
            else if c = '\n' then some ([f], r2)
            else none := rfl

theorem parseCsvAux_nil (fuel : ℕ) : parseCsvAux fuel [] = some [] := by
  cases fuel <;> rfl

theorem parseCsvAux_fuel_succ (fuel : ℕ) (c : Char) (cs : List Char) :
    parseCsvAux (fuel + 1) (c :: cs)
      = match parseRecordAux ((c :: cs).length + 1) (c :: cs) with
        | none => none
        | some (fs, r) =>
          match parseCsvAux fuel r with
          | some rs => some (fs :: rs)
          | none => none := rfl

theorem parseQuotedF_escQuotes (s : List Char) :
    ∀ rest : List Char, rest.head? ≠ some '"' →
      parseQuotedF (escQuotes s ++ '"' :: rest) = some (s, rest) := by
  induction s with
  | nil =>
    intro rest hrest
    rw [escQuotes_nil, List.nil_append]
    cases rest with
    | nil => exact parseQuotedF_quote_nil
    | cons c2 r2 =>
      have hc2 : c2 ≠ '"' := by
        intro h
        exact hrest (by simp [h])
      exact parseQuotedF_quote_other c2 r2 hc2
  | cons c cs ih =>
    intro rest hrest
    rw [escQuotes_cons]
    by_cases hc : c = '"'
    · rw [if_pos hc, List.cons_append, List.cons_append, hc]
      rw [parseQuotedF_quote_quote, ih rest hrest]
    · rw [if_neg hc, List.cons_append]
      rw [parseQuotedF_not_quote c _ hc, ih rest hrest]

theorem parseUnquotedF_append (s : List Char)
    (hs : ∀ c ∈ s, ¬(c = ',' ∨ c = '\n')) :
    ∀ rest : List Char,
      (rest = [] ∨ ∃ c cs, rest = c :: cs ∧ (c = ',' ∨ c = '\n')) →
      parseUnquotedF (s ++ rest) = (s, rest) := by
  induction s with
  | nil =>
    intro rest hrest
    rw [List.nil_append]
    rcases hrest with h | ⟨c, cs, hcs, hc⟩
    · subst h; rfl
    · subst hcs
      rw [parseUnquotedF_cons, if_pos hc]
  | cons c s ih =>
    intro rest hrest
    rw [List.cons_append, parseUnquotedF_cons, if_neg (hs c (by simp))]
    rw [ih (fun x hx => hs x (by simp [hx])) rest hrest]

theorem parseFieldF_csvField (s : List Char)
    (rest : List Char)
    (hrest : rest = [] ∨ ∃ c cs, rest = c :: cs ∧ (c = ',' ∨ c = '\n')) :
    parseFieldF (csvField s ++ rest) = some (s, rest) := by
  rw [csvField]
  by_cases hq : needsQuote s = true
  · rw [if_pos hq, List.cons_append, List.append_assoc]
    rw [parseFieldF_cons, if_pos rfl]
    rw [show ['"'] ++ rest = '"' :: rest from rfl]
    apply parseQuotedF_escQuotes
    rcases hrest with h | ⟨c, cs, hcs, hc⟩
    · subst h; simp
    · subst hcs
      simp only [List.head?_cons, ne_eq, Option.some.injEq]
      rcases hc with h | h <;> subst h <;> decide
  · rw [if_neg hq]
    rw [needsQuote] at hq
    have hnosp : ∀ c ∈ s, c ≠ ',' ∧ c ≠ '"' ∧ c ≠ '\n' := by
      intro c hc
      refine ⟨?_, ?_, ?_⟩ <;>
        (intro h; subst h; exact hq (List.any_eq_true.mpr ⟨_, hc, by decide⟩))
    cases s with
    | nil =>
      rcases hrest with h | ⟨c, cs, hcs, hc⟩
      · subst h; rfl
      · subst hcs
        rw [List.nil_append]
        have hcq : c ≠ '"' := by rcases hc with h | h <;> subst h <;> decide
        rw [parseFieldF_cons, if_neg hcq, parseUnquotedF_cons, if_pos hc]
    | cons c s' =>
      rw [List.cons_append]
      have hcq : c ≠ '"' := (hnosp c (by simp)).2.1
      rw [parseFieldF_cons, if_neg hcq, ← List.cons_append]
      rw [parseUnquotedF_append (c :: s')
        (fun x hx => by
          have h := hnosp x hx
          tauto) rest hrest]

theorem csvRowBody_length (fs : List (List Char)) :
    fs.length ≤ (csvRowBody fs).length + 1 := by
  induction fs with
  | nil => simp
  | cons f fs ih =>
    cases fs with
    | nil => simp [csvRowBody_single]
    | cons g gs =>
      rw [csvRowBody_cons]
      simp only [List.length_cons, List.length_append] at *
      omega

theorem csvLines_length (rows : List (List (List Char))) :
    rows.length ≤ (csvLines rows).length := by
  induction rows with
  | nil => simp [csvLines_nil]
  | cons r rs ih =>
    rw [csvLines_cons, csvRow]
    simp only [List.length_cons, List.length_append] at *
    omega

theorem parseRecordAux_csvRow (fs : List (List Char)) :
    ∀ (fuel : ℕ) (rest : List Char), fs ≠ [] → fs.length ≤ fuel →
      parseRecordAux fuel (csvRowBody fs ++ '\n' :: rest) = some (fs, rest) := by
  induction fs with
  | nil => intro fuel rest h _; exact absurd rfl h
  | cons f fs ih =>
    intro fuel rest _ hlen
    obtain ⟨fuel', rfl⟩ : ∃ k, fuel = k + 1 :=
      ⟨fuel - 1, by simp only [List.length_cons] at hlen; omega⟩
    cases fs with
    | nil =>
      rw [csvRowBody_single, parseRecordAux_fuel_succ]
      rw [parseFieldF_csvField f ('\n' :: rest) (Or.inr ⟨'\n', rest, rfl, Or.inr rfl⟩)]
      dsimp only
      rw [if_neg (show ¬(('\n' : Char) = ',') from by decide)]
      rw [if_pos (show ('\n' : Char) = '\n' from rfl)]
    | cons g gs =>
      rw [csvRowBody_cons, List.append_assoc]
      rw [show (',' : Char) :: csvRowBody (g :: gs) ++ '\n' :: rest
          = ',' :: (csvRowBody (g :: gs) ++ '\n' :: rest) from rfl]
      rw [parseRecordAux_fuel_succ]
      rw [parseFieldF_csvField f (',' :: (csvRowBody (g :: gs) ++ '\n' :: rest))
        (Or.inr ⟨',', _, rfl, Or.inl rfl⟩)]
      dsimp only
      rw [if_pos (show (',' : Char) = ',' from rfl)]
      rw [ih fuel' rest (by simp)
        (by simp only [List.length_cons] at hlen ⊢; omega)]

theorem parseCsvAux_csvLines (rows : List (List (List Char))) :
    ∀ fuel : ℕ, (∀ r ∈ rows, r ≠ []) → rows.length ≤ fuel →
      parseCsvAux fuel (csvLines rows) = some rows := by
  induction rows with
  | nil => intro fuel _ _; exact parseCsvAux_nil fuel
  | cons r rs ih =>
    intro fuel hne hlen
    obtain ⟨fuel', rfl⟩ : ∃ k, fuel = k + 1 :=
      ⟨fuel - 1, by simp only [List.length_cons] at hlen; omega⟩
    rw [csvLines_cons, csvRow]
    have hshape : (csvRowBody r ++ ['\n']) ++ csvLines rs
        = csvRowBody r ++ '\n' :: csvLines rs := by
      rw [List.append_assoc]
      rfl
    rw [hshape]
    cases hcs : csvRowBody r ++ '\n' :: csvLines rs with
    | nil => exact absurd hcs (by simp)
    | cons c cs =>
      rw [parseCsvAux_fuel_succ, ← hcs]
      have hflen : r.length ≤ (csvRowBody r ++ '\n' :: csvLines rs).length + 1 := by
        have h1 := csvRowBody_length r
        simp only [List.length_append, List.length_cons]
        omega
      rw [parseRecordAux_csvRow r _ (csvLines rs) (hne r (by simp)) hflen]
      dsimp only
      rw [ih fuel' (fun x hx => hne x (by simp [hx]))
        (by simp only [List.length_cons] at hlen ⊢; omega)]

theorem parseCsv_csvLines (rows : List (List (List Char)))
    (h : ∀ r ∈ rows, r ≠ []) :
    parseCsv (csvLines rows) = some rows := by
  rw [parseCsv]
  exact parseCsvAux_csvLines rows _ h
    (by have := csvLines_length rows; omega)

/-! ## JSON encoding of the score list

Models `json.dumps(all_scores, ensure_ascii=False)` on the list of
the label/score dictionaries the pipeline returns (with
the default separators `", "` and `": "`), and the corresponding
decoding.  Braces are written with their character codes (`123`/`125`)
via escapes. -/

/-- One `(label, score)` entry of a prediction result, as produced by
the external classification pipeline. -/
structure ScoreItem where
  label : List Char
  score : ℚ
deriving DecidableEq

/-- Lower-case hexadecimal digit character for `d % 16`. -/
def hexChar (d : ℕ) : Char :=
  if d % 16 < 10 then digitChar (d % 16) else Char.ofNat (97 + (d % 16 - 10))

/-- Numeric value of a lower-case hexadecimal digit character. -/
def hexVal (c : Char) : ℕ := if c.isDigit then digitVal c else c.toNat - 87

theorem hexVal_hexChar (d : ℕ) : hexVal (hexChar d) = d % 16 := by
  have h : d % 16 < 16 := Nat.mod_lt _ (by norm_num)
  simp only [hexChar, hexVal]
  generalize d % 16 = m at h ⊢
  interval_cases m <;> decide

/-- Escape one character the way `json.dumps` does inside a string
(`ensure_ascii=False`): quote, backslash and control characters only. -/
def jsonEscChar (c : Char) : List Char :=
  if c = '"' then ['\\', '"']
  else if c = '\\' then ['\\', '\\']
  else if c = '\n' then ['\\', 'n']
  else if c = '\t' then ['\\', 't']
  else if c = '\r' then ['\\', 'r']
  else if c.toNat = 8 then ['\\', 'b']
  else if c.toNat = 12 then ['\\', 'f']
  else if c.toNat < 32 then
    ['\\', 'u', '0', '0', hexChar (c.toNat / 16), hexChar (c.toNat % 16)]
  else [c]

/-- Escape a whole string body. -/
def jsonEsc : List Char → List Char
  | [] => []
  | c :: cs => jsonEscChar c ++ jsonEsc cs

theorem jsonEsc_nil : jsonEsc [] = [] := rfl

theorem jsonEsc_cons (c : Char) (cs : List Char) :
    jsonEsc (c :: cs) = jsonEscChar c ++ jsonEsc cs := rfl

/-- A JSON string literal with its delimiting quotes. -/
def jsonString (s : List Char) : List Char := '"' :: (jsonEsc s ++ ['"'])

/-- One score entry as `json.dumps` renders the pipeline dictionary. -/
def jsonScoreItem (p : ScoreItem) : List Char :=
  ("\x7b\"label\": ".data) ++ jsonString p.label
    ++ (", \"score\": ".data) ++ decToString p.score ++ ['\x7d']

/-- The entries joined by the default item separator `", "`. -/
def jsonScoresBody : List ScoreItem → List Char
  | [] => []
  | [p] => jsonScoreItem p
  | p :: q :: ps => jsonScoreItem p ++ ',' :: ' ' :: jsonScoresBody (q :: ps)

/-- The full JSON array stored in the `all_scores` CSV cell. -/
def jsonScores (ps : List ScoreItem) : List Char :=
  '[' :: (jsonScoresBody ps ++ [']'])

theorem jsonScoresBody_nil : jsonScoresBody [] = [] := rfl

theorem jsonScoresBody_single (p : ScoreItem) :
    jsonScoresBody [p] = jsonScoreItem p := rfl

theorem jsonScoresBody_cons (p q : ScoreItem) (ps : List ScoreItem) :
    jsonScoresBody (p :: q :: ps)
      = jsonScoreItem p ++ ',' :: ' ' :: jsonScoresBody (q :: ps) := rfl

/-- Decode one short escape character (the non-`\u` escapes). -/
def jsonUnescape (e : Char) : Option Char :=
  if e = '"' then some '"'
  else if e = '\\' then some '\\'
  else if e = '/' then some '/'
  else if e = 'n' then some '\n'
  else if e = 't' then some '\t'
  else if e = 'r' then some '\r'
  else if e = 'b' then some (Char.ofNat 8)
  else if e = 'f' then some (Char.ofNat 12)
  else none

/-- Parse a JSON string body (the opening quote already consumed) up to
the closing quote, un-escaping as `json.loads` does. -/
def parseJStringF : List Char → Option (List Char × List Char)
  | [] => none
  | c :: rest =>
    if c = '"' then some ([], rest)
    else if c = '\\' then
      match rest with
      | [] => none
      | e :: rest2 =>
        if e = 'u' then
          match rest2 with
          | h1 :: h2 :: h3 :: h4 :: rest3 =>
            match parseJStringF rest3 with
            | some (s, r) =>
              some (Char.ofNat
                (hexVal h1 * 4096 + hexVal h2 * 256 + hexVal h3 * 16 + hexVal h4) :: s, r)
            | none => none
          | _ => none
        else
          match jsonUnescape e with
          | some d =>
            match parseJStringF rest2 with
            | some (s, r) => some (d :: s, r)
            | none => none
          | none => none
    else
      match parseJStringF rest with
      | some (s, r) => some (c :: s, r)
      | none => none

theorem parseJStringF_quote (rest : List Char) :
    parseJStringF ('"' :: rest) = some ([], rest) := by
  rw [parseJStringF.eq_def]
  simp

theorem parseJStringF_u (h1 h2 h3 h4 : Char) (rest3 : List Char) :
    parseJStringF ('\\' :: 'u' :: h1 :: h2 :: h3 :: h4 :: rest3)
      = match parseJStringF rest3 with
        | some (s, r) =>
          some (Char.ofNat
            (hexVal h1 * 4096 + hexVal h2 * 256 + hexVal h3 * 16 + hexVal h4) :: s, r)
        | none => none := by
  rw [parseJStringF.eq_def]
  simp

theorem parseJStringF_esc (e : Char) (rest2 : List Char) (he : e ≠ 'u') :
    parseJStringF ('\\' :: e :: rest2)
      = match jsonUnescape e with
        | some d =>
          match parseJStringF rest2 with
          | some (s, r) => some (d :: s, r)
          | none => none
        | none => none := by
  rw [parseJStringF.eq_def]
  simp [he]

theorem parseJStringF_plain (c : Char) (rest : List Char)
    (h1 : c ≠ '"') (h2 : c ≠ '\\') :
    parseJStringF (c :: rest)
      = match parseJStringF rest with
        | some (s, r) => some (c :: s, r)
        | none => none := by
  rw [parseJStringF.eq_def]
  simp [h1, h2]

theorem parseJStringF_jsonEsc (s : List Char) :
    ∀ rest : List Char, parseJStringF (jsonEsc s ++ '"' :: rest) = some (s, rest) := by
  induction s with
  | nil => intro rest; rw [jsonEsc_nil, List.nil_append, parseJStringF_quote]
  | cons c cs ih =>
    intro rest
    rw [jsonEsc_cons, List.append_assoc]
    by_cases h1 : c = '"'
    · subst h1
      show parseJStringF ('\\' :: '"' :: (jsonEsc cs ++ '"' :: rest)) = _
      rw [parseJStringF_esc '"' _ (by decide), ih rest]
      rfl
    · by_cases h2 : c = '\\'
      · subst h2
        show parseJStringF ('\\' :: '\\' :: (jsonEsc cs ++ '"' :: rest)) = _
        rw [parseJStringF_esc '\\' _ (by decide), ih rest]
        rfl
      · by_cases h3 : c = '\n'
        · subst h3
          show parseJStringF ('\\' :: 'n' :: (jsonEsc cs ++ '"' :: rest)) = _
          rw [parseJStringF_esc 'n' _ (by decide), ih rest]
          rfl
        · by_cases h4 : c = '\t'
          · subst h4
            show parseJStringF ('\\' :: 't' :: (jsonEsc cs ++ '"' :: rest)) = _
            rw [parseJStringF_esc 't' _ (by decide), ih rest]
            rfl
          · by_cases h5 : c = '\r'
            · subst h5
              show parseJStringF ('\\' :: 'r' :: (jsonEsc cs ++ '"' :: rest)) = _
              rw [parseJStringF_esc 'r' _ (by decide), ih rest]
              rfl
            · by_cases h6 : c.toNat = 8
              · have hc : c = Char.ofNat 8 := by rw [← h6, Char.ofNat_toNat]
                subst hc
                show parseJStringF ('\\' :: 'b' :: (jsonEsc cs ++ '"' :: rest)) = _
                rw [parseJStringF_esc 'b' _ (by decide), ih rest]
                rfl
              · by_cases h7 : c.toNat = 12
                · have hc : c = Char.ofNat 12 := by rw [← h7, Char.ofNat_toNat]
                  subst hc
                  show parseJStringF ('\\' :: 'f' :: (jsonEsc cs ++ '"' :: rest)) = _
                  rw [parseJStringF_esc 'f' _ (by decide), ih rest]
                  rfl
                · by_cases h8 : c.toNat < 32
                  · rw [jsonEscChar, if_neg h1, if_neg h2, if_neg h3, if_neg h4, if_neg h5,
                      if_neg h6, if_neg h7, if_pos h8]
                    rw [show (['\\', 'u', '0', '0', hexChar (c.toNat / 16), hexChar (c.toNat % 16)]
                        ++ (jsonEsc cs ++ '"' :: rest))
                      = '\\' :: 'u' :: '0' :: '0' :: hexChar (c.toNat / 16)
                          :: hexChar (c.toNat % 16) :: (jsonEsc cs ++ '"' :: rest) from rfl]
                    rw [parseJStringF_u, ih rest]
                    have hv : hexVal '0' * 4096 + hexVal '0' * 256
                        + hexVal (hexChar (c.toNat / 16)) * 16
                        + hexVal (hexChar (c.toNat % 16)) = c.toNat := by
                      rw [hexVal_hexChar, hexVal_hexChar]
                      have h0 : hexVal '0' = 0 := by decide
                      rw [h0]
                      omega
                    rw [hv, Char.ofNat_toNat]
                  · rw [jsonEscChar, if_neg h1, if_neg h2, if_neg h3, if_neg h4, if_neg h5,
                      if_neg h6, if_neg h7, if_neg h8, List.singleton_append]
                    rw [parseJStringF_plain c _ h1 h2, ih rest]

/-- Consume an exact expected character sequence. -/
def expectChars : List Char → List Char → Option (List Char)
  | [], cs => some cs
  | _ :: _, [] => none
  | p :: ps, c :: cs => if c = p then expectChars ps cs else none

theorem expectChars_nil (cs : List Char) : expectChars [] cs = some cs := rfl

theorem expectChars_cons (p : Char) (ps : List Char) (c : Char) (cs : List Char) :
    expectChars (p :: ps) (c :: cs) = if c = p then expectChars ps cs else none := rfl

theorem expectChars_append (p rest : List Char) : expectChars p (p ++ rest) = some rest := by
  induction p with
  | nil => rfl
  | cons c cs ih => rw [List.cons_append, expectChars_cons, if_pos rfl, ih]

/-- Parse a JSON string literal including its opening quote. -/
def parseJsonStringLit : List Char → Option (List Char × List Char)
  | '"' :: rest => parseJStringF rest
  | _ => none

theorem parseJsonStringLit_quote (rest : List Char) :
    parseJsonStringLit ('"' :: rest) = parseJStringF rest := rfl

/-- Parse one score object: a brace, the label string, the score
number, a closing brace. -/
def parseScoreItemF (cs : List Char) : Option (ScoreItem × List Char) :=
  match expectChars ("\x7b\"label\": ".data) cs with
  | none => none
  | some cs1 =>
    match parseJsonStringLit cs1 with
    | none => none
    | some (lab, cs2) =>
      match expectChars (", \"score\": ".data) cs2 with
      | none => none
      | some cs3 =>
        match parseNumChars cs3 with
        | none => none
        | some (q, cs4) =>
          match cs4 with
          | c :: cs5 => if c = '\x7d' then some (⟨lab, q⟩, cs5) else none
          | [] => none

/-- Parse the entries of a JSON array of score objects, separated by
`", "`.  `fuel` bounds the number of entries. -/
def parseScoresAux : ℕ → List Char → Option (List ScoreItem × List Char)
  | 0, _ => none
  | fuel + 1, cs =>
    match parseScoreItemF cs with
    | none => none
    | some (p, rest) =>
      match rest with
      | [] => some ([p], [])
      | [c] => some ([p], [c])
      | c1 :: c2 :: rest2 =>
        if c1 = ',' ∧ c2 = ' ' then
          match parseScoresAux fuel rest2 with
          | some (ps, r) => some (p :: ps, r)
          | none => none
        else some ([p], c1 :: c2 :: rest2)

/-- Decode the `all_scores` cell: a complete JSON array of score
objects, modelling `json.loads` on the texts `json.dumps` produces. -/
def parseScores (cs : List Char) : Option (List ScoreItem) :=
  match cs with
  | '[' :: rest =>
    if rest = [']'] then some []
    else
      match parseScoresAux rest.length rest with
      | some (ps, r) => if r = [']'] then some ps else none
      | none => none
  | _ => none

theorem parseScoresAux_fuel_zero (cs : List Char) : parseScoresAux 0 cs = none := rfl

theorem parseScoresAux_fuel_succ (fuel : ℕ) (cs : List Char) :
    parseScoresAux (fuel + 1) cs
      = match parseScoreItemF cs with
        | none => none
        | some (p, rest) =>
          match rest with
          | [] => some ([p], [])
          | [c] => some ([p], [c])
          | c1 :: c2 :: rest2 =>
            if c1 = ',' ∧ c2 = ' ' then
              match parseScoresAux fuel rest2 with
              | some (ps, r) => some (p :: ps, r)
              | none => none
            else some ([p], c1 :: c2 :: rest2) := rfl

theorem parseScores_bracket (rest : List Char) :
    parseScores ('[' :: rest)
      = if rest = [']'] then some []
        else
          match parseScoresAux rest.length rest with
          | some (ps, r) => if r = [']'] then some ps else none
          | none => none := rfl

theorem parseScoreItemF_jsonScoreItem (p : ScoreItem) (hdec : isDec p.score = true)
    (rest : List Char) :
    parseScoreItemF (jsonScoreItem p ++ rest) = some (p, rest) := by
  have hshape : jsonScoreItem p ++ rest
      = ("\x7b\"label\": ".data)
        ++ ('"' :: (jsonEsc p.label ++ '"' :: ((", \"score\": ".data)
          ++ (decToString p.score ++ '\x7d' :: rest)))) := by
    rw [jsonScoreItem, jsonString]
    simp [List.append_assoc]
  rw [hshape]
  simp only [parseScoreItemF]
  rw [expectChars_append]
  dsimp only
  rw [parseJsonStringLit_quote, parseJStringF_jsonEsc]
  dsimp only
  rw [expectChars_append]
  dsimp only
  rw [parseNumChars_decToString p.score hdec ('\x7d' :: rest)
    (by intro c hc; simp at hc; subst hc; decide)]
  dsimp only
  rw [if_pos rfl]

theorem jsonScoreItem_length_pos (p : ScoreItem) : 0 < (jsonScoreItem p).length := by
  rw [jsonScoreItem]
  simp [List.length_append]

theorem jsonScoresBody_length (ps : List ScoreItem) :
    ps.length ≤ (jsonScoresBody ps).length := by
  induction ps with
  | nil => simp [jsonScoresBody_nil]
  | cons p ps ih =>
    cases ps with
    | nil =>
      rw [jsonScoresBody_single]
      have := jsonScoreItem_length_pos p
      simp
      omega
    | cons q qs =>
      rw [jsonScoresBody_cons]
      have := jsonScoreItem_length_pos p
      simp only [List.length_cons, List.length_append] at *
      omega

theorem parseScoresAux_jsonScoresBody (ps : List ScoreItem) :
    ∀ fuel : ℕ, ps ≠ [] → ps.length ≤ fuel → (∀ p ∈ ps, isDec p.score = true) →
      parseScoresAux fuel (jsonScoresBody ps ++ [']']) = some (ps, [']']) := by
  induction ps with
  | nil => intro fuel h _ _; exact absurd rfl h
  | cons p ps ih =>
    intro fuel _ hlen hdec
    obtain ⟨fuel', rfl⟩ : ∃ k, fuel = k + 1 :=
      ⟨fuel - 1, by simp only [List.length_cons] at hlen; omega⟩
    cases ps with
    | nil =>
      rw [jsonScoresBody_single, parseScoresAux_fuel_succ]
      rw [parseScoreItemF_jsonScoreItem p (hdec p (by simp)) [']']]
    | cons q qs =>
      rw [jsonScoresBody_cons, List.append_assoc]
      rw [show (',' :: ' ' :: jsonScoresBody (q :: qs)) ++ [']']
          = ',' :: ' ' :: (jsonScoresBody (q :: qs) ++ [']']) from rfl]
      rw [parseScoresAux_fuel_succ]
      rw [parseScoreItemF_jsonScoreItem p (hdec p (by simp))
        (',' :: ' ' :: (jsonScoresBody (q :: qs) ++ [']']))]
      dsimp only
      rw [if_pos ⟨rfl, rfl⟩]
      rw [ih fuel' (by simp)
        (by simp only [List.length_cons] at hlen ⊢; omega)
        (fun x hx => hdec x (by simp [hx]))]

theorem parseScores_jsonScores (ps : List ScoreItem)
    (h : ∀ p ∈ ps, isDec p.score = true) :
    parseScores (jsonScores ps) = some ps := by
  cases ps with
  | nil => rfl
  | cons p ps' =>
    rw [jsonScores, parseScores_bracket]
    have hbody : jsonScoresBody (p :: ps') ≠ [] := by
      cases ps' with
      | nil =>
        rw [jsonScoresBody_single]
        have := jsonScoreItem_length_pos p
        intro hcon
        rw [hcon] at this
        simp at this
      | cons q qs =>
        rw [jsonScoresBody_cons]
        intro hcon
        have := jsonScoreItem_length_pos p
        have hlen := congrArg List.length hcon
        simp only [List.length_append, List.length_cons, List.length_nil] at hlen
        omega
    rw [if_neg (by
      intro hcon
      have hlen := congrArg List.length hcon
      simp only [List.length_append, List.length_cons, List.length_nil] at hlen
      exact hbody (List.length_eq_zero.mp (by omega)))]
    have hfl : (p :: ps').length ≤ (jsonScoresBody (p :: ps') ++ [']']).length := by
      have hb := jsonScoresBody_length (p :: ps')
      simp only [List.length_append, List.length_cons, List.length_nil] at *
      omega
    rw [parseScoresAux_jsonScoresBody (p :: ps') _ (by simp) hfl h]
    dsimp only
    rw [if_pos rfl]

/-! ## The application (`app_text_emotion.py`)

Direct embeddings of the source's constants and logic.  Python strings
are `List Char`; the log file state is `Option (List Char)`. -/

/-- Fixed English model identifier (`EN_MODEL`). -/
def EN_MODEL : List Char := "bhadresh-savani/distilbert-base-uncased-emotion".data

/-- Fixed multilingual model identifier (`MULTI_MODEL`). -/
def MULTI_MODEL : List Char := "cardiffnlp/twitter-xlm-roberta-base-emotion".data

/-- The fixed `EMOJI_MAP`, as an association list in the source's
insertion order. -/
def EMOJI_MAP : List (List Char × List Char) :=
  [("joy".data, "😄".data), ("happy".data, "😄".data), ("sadness".data, "😢".data),
   ("sad".data, "😢".data), ("anger".data, "😡".data), ("anger/annoyance".data, "😡".data),
   ("disgust".data, "🤢".data), ("fear".data, "😨".data), ("surprise".data, "😲".data),
   ("neutral".data, "😐".data), ("love".data, "❤️".data), ("enthusiasm".data, "🤩".data)]

/-- Python `str.lower`, applied characterwise with the ASCII case
mapping (`label.lower()`). -/
def pyLower (s : List Char) : List Char := s.map Char.toLower

/-- Python `str.upper`, applied characterwise with the ASCII case
mapping. -/
def pyUpper (s : List Char) : List Char := s.map Char.toUpper

/-- `label_to_emoji`: lower-case the label, look it up in `EMOJI_MAP`,
and fall back to the default glyph (`EMOJI_MAP.get(l, "🟦")`). -/
def label_to_emoji (label : List Char) : List Char :=
  (EMOJI_MAP.lookup (pyLower label)).getD ("🟦".data)

/-- Model selection:
`model_name = EN_MODEL if lang.startswith("English") else MULTI_MODEL`. -/
def model_name (lang : List Char) : List Char :=
  if ("English".data).isPrefixOf lang then EN_MODEL else MULTI_MODEL

/-- Python's ASCII whitespace characters (space, tab, newline, carriage
return, vertical tab, form feed), as dropped by `str.strip()`. -/
def pyIsSpace (c : Char) : Bool :=
  c == ' ' || c == '\t' || c == '\n' || c == '\r' || c == '\x0b' || c == '\x0c'

/-- Python `text.strip()`: drop leading and trailing whitespace. -/
def pyStrip (s : List Char) : List Char :=
  ((s.dropWhile pyIsSpace).reverse.dropWhile pyIsSpace).reverse

/-- The stable descending sort
`sorted(preds, key=lambda x: x["score"], reverse=True)` (Python's sort
is stable; with `reverse=True` every comparison is flipped, so this is
the stable sort along `b.score ≤ a.score`). -/
def preds_sorted (preds : List ScoreItem) : List ScoreItem :=
  preds.mergeSort (fun a b => decide (b.score ≤ a.score))

/-- `top3 = preds_sorted[:3]`. -/
def top3Of (preds : List ScoreItem) : List ScoreItem := (preds_sorted preds).take 3

/-- `top = top3[0]`, which in Python raises `IndexError` when `top3` is
empty; the failure is the `none` case. -/
def topOf (preds : List ScoreItem) : Option ScoreItem := (top3Of preds).head?

/-- Column names of the log CSV, in the insertion order of
`save_prediction`'s row dictionary. -/
def headerFields : List (List Char) :=
  ["timestamp".data, "text".data, "language".data, "top_label".data,
   "top_score".data, "all_scores".data]

/-- The six serialized cells of one log row: timestamp, raw text,
language choice, top label, top score as printed, and the full ranked
score list as JSON text (`json.dumps(all_scores, ensure_ascii=False)`). -/
def rowFields (now text lang top_label : List Char) (top_score : ℚ)
    (all_scores : List ScoreItem) : List (List Char) :=
  [now, text, lang, top_label, decToString top_score, jsonScores all_scores]

/-- `save_prediction`: append one row to the CSV log; when the file
does not exist, create it writing the header first (`df.to_csv` with
header), otherwise append without a header (`mode="a", header=False`).
`now` is the value of `datetime.datetime.now().isoformat()`. -/
def save_prediction (now text lang top_label : List Char) (top_score : ℚ)
    (all_scores : List ScoreItem) (file : Option (List Char)) : List Char :=
  match file with
  | none =>
    csvRow headerFields ++ csvRow (rowFields now text lang top_label top_score all_scores)
  | some c => c ++ csvRow (rowFields now text lang top_label top_score all_scores)

/-- Observable outcome of one press of the "Predict emotion" button. -/
inductive PredictOutcome where
  | warning
  | indexError
  | success (emoji : List Char) (top : ScoreItem) (top3 : List ScoreItem)
deriving DecidableEq

/-- One press of "Predict emotion": warn on blank input and do nothing
else; otherwise run the pipeline, sort descending, take the top
entries, resolve the emoji, and log.  Returns the new file state and
the outcome; `indexError` is the `top3[0]` lookup failing on an empty
prediction list.  `pipe` stands for the cached classification
pipeline applied to one input. -/
def predictAction (pipe : List Char → List ScoreItem)
    (text lang now : List Char) (file : Option (List Char)) :
    Option (List Char) × PredictOutcome :=
  if pyStrip text = [] then (file, PredictOutcome.warning)
  else
    match (top3Of (pipe text)).head? with
    | none => (file, PredictOutcome.indexError)
    | some top =>
      (some (save_prediction now text lang top.label top.score
          (preds_sorted (pipe text)) file),
       PredictOutcome.success (label_to_emoji top.label) top (top3Of (pipe text)))

/-- Message shown by the "Clear saved CSV" button. -/
inductive ClearMsg where
  | success
  | info
deriving DecidableEq

/-- One press of "Clear saved CSV": delete the log if it exists and
report success, otherwise report an informational no-op. -/
def clearAction : Option (List Char) → Option (List Char) × ClearMsg
  | some _ => (none, ClearMsg.success)
  | none => (none, ClearMsg.info)

/-- Number of data rows reported in the sidebar (`len(df_log)` after
`pandas.read_csv`): parsed records minus the header record. -/
def logRowCount (c : List Char) : Option ℕ :=
  (parseCsv c).map (fun rs => rs.length - 1)

/-- A log file as this program writes it: the rendered header record
followed by rendered data records, each with at least one field. -/
def WellFormedLog (c : List Char) : Prop :=
  ∃ rows : List (List (List Char)),
    (∀ r ∈ rows, r ≠ []) ∧ c = csvLines (headerFields :: rows)

/-- The pipeline scores of the spec's promotion scenario. -/
def scenarioScores : List ScoreItem :=
  [⟨"joy".data, mkRat 91 100⟩, ⟨"surprise".data, mkRat 5 100⟩,
   ⟨"neutral".data, mkRat 2 100⟩, ⟨"sadness".data, mkRat 1 100⟩,
   ⟨"anger".data, mkRat 1 100⟩]

/-! ## Case-mapping facts for the emoji resolver -/

theorem char_toLower_toUpper (c : Char) : c.toUpper.toLower = c.toLower := by
  by_cases h : 97 ≤ c.toNat ∧ c.toNat ≤ 122
  · rw [← Char.ofNat_toNat c]
    obtain ⟨h1, h2⟩ := h
    generalize c.toNat = n at h1 h2
    interval_cases n <;> decide
  · have hup : c.toUpper = c := by
      show (if c.toNat ≥ 97 ∧ c.toNat ≤ 122 then Char.ofNat (c.toNat - 32) else c) = c
      rw [if_neg (by omega)]
    rw [hup]

theorem char_toLower_toLower (c : Char) : c.toLower.toLower = c.toLower := by
  by_cases h : 65 ≤ c.toNat ∧ c.toNat ≤ 90
  · rw [← Char.ofNat_toNat c]
    obtain ⟨h1, h2⟩ := h
    generalize c.toNat = n at h1 h2
    interval_cases n <;> decide
  · have hlow : c.toLower = c := by
      show (if c.toNat ≥ 65 ∧ c.toNat ≤ 90 then Char.ofNat (c.toNat + 32) else c) = c
      rw [if_neg (by omega)]
    rw [hlow]
    exact hlow

theorem pyLower_pyUpper (s : List Char) : pyLower (pyUpper s) = pyLower s := by
  induction s with
  | nil => rfl
  | cons c cs ih =>
    simp only [pyLower, pyUpper, List.map_cons] at *
    rw [char_toLower_toUpper, ih]

theorem pyLower_pyLower (s : List Char) : pyLower (pyLower s) = pyLower s := by
  induction s with
  | nil => rfl
  | cons c cs ih =>
    simp only [pyLower, List.map_cons] at *
    rw [char_toLower_toLower, ih]

/-! ## The claims -/

/-- C2: for every row, `save_prediction` on an absent LogFile creates
it containing exactly the header row
`timestamp,text,language,top_label,top_score,all_scores` followed by
the one data row, and on an existing LogFile appends exactly the one
data row without writing another header. -/
theorem save_prediction_header_and_append
    (now text lang top_label : List Char) (top_score : ℚ)
    (all_scores : List ScoreItem) :
    save_prediction now text lang top_label top_score all_scores none
      = ("timestamp,text,language,top_label,top_score,all_scores\n".data)
        ++ csvRow (rowFields now text lang top_label top_score all_scores)
    ∧ ∀ c : List Char,
        save_prediction now text lang top_label top_score all_scores (some c)
          = c ++ csvRow (rowFields now text lang top_label top_score all_scores) := by
  constructor
  · show csvRow headerFields ++ _ = _
    rw [show csvRow headerFields
        = ("timestamp,text,language,top_label,top_score,all_scores\n".data) from by decide]
  · intro c
    rfl

/-- C5: the clear action deletes an existing LogFile reporting success,
is an informational no-op when the file is absent, and hence invoking
clear twice in a row never fails: the second invocation is always the
informational no-op. -/
theorem clearAction_idempotent_never_fails :
    (∀ c : List Char, clearAction (some c) = (none, ClearMsg.success))
    ∧ clearAction none = (none, ClearMsg.info)
    ∧ ∀ file : Option (List Char),
        clearAction (clearAction file).1 = (none, ClearMsg.info) := by
  refine ⟨fun c => rfl, rfl, fun file => ?_⟩
  cases file <;> rfl

/-- C6: emoji resolution is case-insensitive —
`label_to_emoji L = label_to_emoji (L.upper()) = label_to_emoji (L.lower())` —
and every label whose lower-cased form is not a key of `EMOJI_MAP`
resolves to the fixed default glyph; `label_to_emoji` is a total Lean
function on all strings. -/
theorem label_to_emoji_case_insensitive (L : List Char) :
    label_to_emoji (pyUpper L) = label_to_emoji L
    ∧ label_to_emoji (pyLower L) = label_to_emoji L
    ∧ (EMOJI_MAP.lookup (pyLower L) = none → label_to_emoji L = ("🟦".data)) := by
  refine ⟨?_, ?_, ?_⟩
  · rw [label_to_emoji, label_to_emoji, pyLower_pyUpper]
  · rw [label_to_emoji, label_to_emoji, pyLower_pyLower]
  · intro h
    rw [label_to_emoji, h]
    rfl

/-- Witness for C6 at concrete labels: mixed case resolves like lower
case, and an unmapped label yields the default glyph. -/
theorem label_to_emoji_case_insensitive_witness :
    label_to_emoji (pyUpper ("JoY".data)) = label_to_emoji ("JoY".data)
    ∧ (EMOJI_MAP.lookup (pyLower ("mystery".data)) = none
        ∧ label_to_emoji ("mystery".data) = ("🟦".data)) :=
  ⟨(label_to_emoji_case_insensitive ("JoY".data)).1,
   by decide,
   (label_to_emoji_case_insensitive ("mystery".data)).2.2 (by decide)⟩

/-- C7: model selection depends only on the language-choice string and
never on the input text: the "English (fast)" choice selects the fixed
English identifier, "Hindi / Multilingual" the fixed multilingual one,
any value not starting with "English" silently falls through to the
multilingual identifier, and every value maps to one of the two fixed
identifiers (no validation error). -/
theorem model_name_selection :
    model_name ("English (fast)".data) = EN_MODEL
    ∧ model_name ("Hindi / Multilingual".data) = MULTI_MODEL
    ∧ (∀ lang : List Char, ("English".data).isPrefixOf lang = false →
        model_name lang = MULTI_MODEL)
    ∧ ∀ lang : List Char, model_name lang = EN_MODEL ∨ model_name lang = MULTI_MODEL := by
  refine ⟨by decide, by decide, ?_, ?_⟩
  · intro lang h
    rw [model_name, if_neg (by simp [h])]
  · intro lang
    rw [model_name]
    by_cases hp : ("English".data).isPrefixOf lang = true
    · left
      rw [if_pos hp]
    · right
      rw [if_neg hp]

/-- Witness for C7: the "Hindi / Multilingual" choice does not start
with "English" and maps to the multilingual identifier. -/
theorem model_name_selection_witness :
    ("English".data).isPrefixOf ("Hindi / Multilingual".data) = false
    ∧ model_name ("Hindi / Multilingual".data) = MULTI_MODEL :=
  ⟨by decide, model_name_selection.2.2.1 _ (by decide)⟩

theorem preds_sorted_le_trans (a b c : ScoreItem)
    (h1 : decide (b.score ≤ a.score) = true) (h2 : decide (c.score ≤ b.score) = true) :
    decide (c.score ≤ a.score) = true := by
  rw [decide_eq_true_iff] at *
  exact le_trans h2 h1

theorem preds_sorted_le_total (a b : ScoreItem) :
    (decide (b.score ≤ a.score) || decide (a.score ≤ b.score)) = true := by
  rw [Bool.or_eq_true, decide_eq_true_iff, decide_eq_true_iff]
  exact (le_total b.score a.score)

/-- C3: the Result Ranker's output is a permutation of the input that
is non-increasing by score, entries with equal scores preserve their
relative input order (filtering input and output at any fixed score
gives the same sequence — a stable descending sort), `top3` is the
first three elements of that output, and `top` its first element. -/
theorem preds_sorted_stable_desc (preds : List ScoreItem) :
    (preds_sorted preds).Perm preds
    ∧ List.Pairwise (fun a b : ScoreItem => b.score ≤ a.score) (preds_sorted preds)
    ∧ (∀ q : ℚ, (preds_sorted preds).filter (fun p => p.score == q)
        = preds.filter (fun p => p.score == q))
    ∧ top3Of preds = (preds_sorted preds).take 3
    ∧ topOf preds = (preds_sorted preds).head? := by
  refine ⟨List.mergeSort_perm preds _, ?_, ?_, rfl, ?_⟩
  · have h := List.sorted_mergeSort
      preds_sorted_le_trans preds_sorted_le_total preds
    exact h.imp (fun hab => of_decide_eq_true hab)
  · intro q
    have hfs : (preds.filter (fun p => p.score == q)).Sublist preds :=
      List.filter_sublist preds
    have hpair : List.Pairwise
        (fun a b : ScoreItem => (decide (b.score ≤ a.score)) = true)
        (preds.filter (fun p => p.score == q)) := by
      apply List.pairwise_of_forall_mem_list
      intro a ha b hb
      have ha2 := (List.mem_filter.mp ha).2
      have hb2 := (List.mem_filter.mp hb).2
      rw [beq_iff_eq] at ha2 hb2
      rw [decide_eq_true_iff, ha2, hb2]
    have hsub : (preds.filter (fun p => p.score == q)).Sublist (preds_sorted preds) :=
      List.sublist_mergeSort preds_sorted_le_trans preds_sorted_le_total hpair hfs
    have hsub2 : (preds.filter (fun p => p.score == q)).Sublist
        ((preds_sorted preds).filter (fun p => p.score == q)) := by
      have h2 := hsub.filter (fun p => p.score == q)
      rwa [List.filter_filter, show (fun a : ScoreItem =>
        (a.score == q) && (a.score == q)) = (fun a : ScoreItem => a.score == q) from by
          funext a
          rw [Bool.and_self]] at h2
    have hlen : ((preds.filter (fun p => p.score == q)).length)
        = ((preds_sorted preds).filter (fun p => p.score == q)).length :=
      (((List.mergeSort_perm preds _).filter (fun p => p.score == q)).length_eq).symm
    exact (hsub2.eq_of_length hlen).symm
  · show (top3Of preds).head? = _
    rw [top3Of]
    cases preds_sorted preds <;> rfl

/-- C4: on empty or whitespace-only input, the predict action yields
the warning, performs no inference call (its result does not depend on
the pipeline at all) and no LogFile write: the file state, and with it
the LogFile's row count, is unchanged. -/
theorem predictAction_blank_input (pipe pipe2 : List Char → List ScoreItem)
    (text lang now : List Char) (file : Option (List Char))
    (h : pyStrip text = []) :
    predictAction pipe text lang now file = (file, PredictOutcome.warning)
    ∧ predictAction pipe text lang now file = predictAction pipe2 text lang now file
    ∧ ((predictAction pipe text lang now file).1).map logRowCount = file.map logRowCount := by
  have h1 : predictAction pipe text lang now file = (file, PredictOutcome.warning) := by
    simp only [predictAction]
    rw [if_pos h]
  have h2 : predictAction pipe2 text lang now file = (file, PredictOutcome.warning) := by
    simp only [predictAction]
    rw [if_pos h]
  exact ⟨h1, h1.trans h2.symm, by rw [h1]⟩

/-- Witness for C4: the empty input is rejected with a warning and the
file state stays `none`. -/
theorem predictAction_blank_input_witness :
    pyStrip ("".data) = []
    ∧ predictAction (fun _ => scenarioScores) ("".data) ("English (fast)".data)
        ("2024-01-01T00:00:00".data) none = (none, PredictOutcome.warning) :=
  ⟨by decide,
   (predictAction_blank_input (fun _ => scenarioScores) (fun _ => scenarioScores)
     ("".data) ("English (fast)".data) ("2024-01-01T00:00:00".data) none (by decide)).1⟩

/-- C9: selecting the top prediction is only total for non-empty score
lists — on non-blank input, if the pipeline returns the empty list the
action stops with the out-of-range index error of `top3[0]` and does
not write the LogFile, while if the pipeline returns at least one entry
the error branch is unreachable and the action succeeds. -/
theorem predictAction_empty_scores (pipe : List Char → List ScoreItem)
    (text lang now : List Char) (file : Option (List Char))
    (h : pyStrip text ≠ []) :
    (pipe text = [] →
      predictAction pipe text lang now file = (file, PredictOutcome.indexError))
    ∧ (pipe text ≠ [] →
      ∃ e t t3 nf, predictAction pipe text lang now file
        = (some nf, PredictOutcome.success e t t3)) := by
  constructor
  · intro hp
    simp only [predictAction]
    rw [if_neg h, hp]
    have ht : top3Of ([] : List ScoreItem) = [] := by
      simp only [top3Of, preds_sorted]
      rw [List.mergeSort_nil]
      rfl
    rw [ht]
    rfl
  · intro hp
    cases hpe : pipe text with
    | nil => exact absurd hpe hp
    | cons a as =>
      have hne : preds_sorted (a :: as) ≠ [] := by
        intro hcon
        have hperm := List.mergeSort_perm (a :: as)
          (fun x y : ScoreItem => decide (y.score ≤ x.score))
        rw [show (a :: as).mergeSort (fun x y : ScoreItem => decide (y.score ≤ x.score))
            = preds_sorted (a :: as) from rfl, hcon] at hperm
        simpa using hperm.length_eq
      cases hps : preds_sorted (a :: as) with
      | nil => exact absurd hps hne
      | cons b bs =>
        have hhead : (top3Of (a :: as)).head? = some b := by
          simp only [top3Of]
          rw [hps]
          rfl
        simp only [predictAction]
        rw [if_neg h, hpe, hhead]
        exact ⟨_, _, _, _, rfl⟩

/-- Witness for C9: a non-blank input with an empty pipeline result
hits the index error, and with the scenario's five entries succeeds. -/
theorem predictAction_empty_scores_witness :
    pyStrip ("hi".data) ≠ []
    ∧ predictAction (fun _ => ([] : List ScoreItem)) ("hi".data)
        ("English (fast)".data) ("2024-01-01T00:00:00".data) none
        = (none, PredictOutcome.indexError)
    ∧ ∃ e t t3 nf, predictAction (fun _ => scenarioScores) ("hi".data)
        ("English (fast)".data) ("2024-01-01T00:00:00".data) none
        = (some nf, PredictOutcome.success e t t3) :=
  ⟨by decide,
   (predictAction_empty_scores (fun _ => ([] : List ScoreItem)) ("hi".data)
     ("English (fast)".data) ("2024-01-01T00:00:00".data) none (by decide)).1 rfl,
   (predictAction_empty_scores (fun _ => scenarioScores) ("hi".data)
     ("English (fast)".data) ("2024-01-01T00:00:00".data) none (by decide)).2
     (by decide)⟩

/-- C10: every successful prediction grows the log by exactly one
logical row and leaves all previously written bytes unchanged — the new
contents are the old contents with exactly one rendered record
appended, and since fields are CSV-quoted this holds for any input
text, including text with commas, quotes or newlines: the displayed
row count increases by exactly 1. -/
theorem predictAction_appends_one_row
    (rows : List (List (List Char))) (hrows : ∀ r ∈ rows, r ≠ [])
    (pipe : List Char → List ScoreItem) (text lang now : List Char)
    (h1 : pyStrip text ≠ []) (h2 : pipe text ≠ []) :
    ∃ newRow : List (List Char),
      (predictAction pipe text lang now (some (csvLines (headerFields :: rows)))).1
        = some (csvLines (headerFields :: rows) ++ csvRow newRow)
      ∧ logRowCount (csvLines (headerFields :: rows)) = some rows.length
      ∧ logRowCount (csvLines (headerFields :: rows) ++ csvRow newRow)
          = some (rows.length + 1) := by
  have hall : ∀ r ∈ headerFields :: rows, r ≠ [] := by
    intro r hr
    rcases List.mem_cons.mp hr with h | h
    · subst h
      simp [headerFields]
    · exact hrows r h
  cases hpe : pipe text with
  | nil => exact absurd hpe h2
  | cons a as =>
    have hne : preds_sorted (a :: as) ≠ [] := by
      intro hcon
      have hperm := List.mergeSort_perm (a :: as)
        (fun x y : ScoreItem => decide (y.score ≤ x.score))
      rw [show (a :: as).mergeSort (fun x y : ScoreItem => decide (y.score ≤ x.score))
          = preds_sorted (a :: as) from rfl, hcon] at hperm
      simpa using hperm.length_eq
    cases hps : preds_sorted (a :: as) with
    | nil => exact absurd hps hne
    | cons b bs =>
      have hhead : (top3Of (a :: as)).head? = some b := by
        simp only [top3Of]
        rw [hps]
        rfl
      refine ⟨rowFields now text lang b.label b.score (preds_sorted (a :: as)), ?_, ?_, ?_⟩
      · have hact : predictAction pipe text lang now
            (some (csvLines (headerFields :: rows)))
            = (some (csvLines (headerFields :: rows)
                ++ csvRow (rowFields now text lang b.label b.score (preds_sorted (a :: as)))),
               PredictOutcome.success (label_to_emoji b.label) b (top3Of (a :: as))) := by
          simp only [predictAction]
          rw [if_neg h1, hpe, hhead]
          rfl
        rw [hact]
      · rw [logRowCount, parseCsv_csvLines _ hall]
        simp
      · have happ : csvLines (headerFields :: rows)
            ++ csvRow (rowFields now text lang b.label b.score (preds_sorted (a :: as)))
            = csvLines ((headerFields :: rows)
                ++ [rowFields now text lang b.label b.score (preds_sorted (a :: as))]) := by
          rw [csvLines_append]
          congr 1
          rw [csvLines_cons, csvLines_nil, List.append_nil]
        rw [happ, logRowCount, parseCsv_csvLines]
        · simp [List.length_append]
        · intro r hr
          rcases List.mem_cons.mp hr with h | h
          · subst h
            simp [headerFields]
          · rcases List.mem_append.mp h with h3 | h3
            · exact hrows r h3
            · simp at h3
              subst h3
              simp [rowFields]

/-- Witness for C10 on an input text containing a comma, a quote and a
newline, over a log holding only the header. -/
theorem predictAction_appends_one_row_witness :
    ∃ newRow : List (List Char),
      (predictAction (fun _ => scenarioScores) ("a,b\"c\nd".data)
          ("English (fast)".data) ("2024-01-01T00:00:00".data)
          (some (csvLines (headerFields :: [])))).1
        = some (csvLines (headerFields :: []) ++ csvRow newRow)
      ∧ logRowCount (csvLines (headerFields :: [])) = some 0
      ∧ logRowCount (csvLines (headerFields :: []) ++ csvRow newRow) = some 1 :=
  predictAction_appends_one_row [] (by simp) (fun _ => scenarioScores)
    ("a,b\"c\nd".data) ("English (fast)".data) ("2024-01-01T00:00:00".data)
    (by decide) (by decide)

/-- C8: when the pipeline returns joy 0.91, surprise 0.05,
neutral 0.02, sadness 0.01, anger 0.01 for the non-empty promotion
input, the predict action succeeds with top label "joy", emoji "😄" and
top3 = [joy 0.91, surprise 0.05, neutral 0.02], appending exactly one
LogRow whose `top_label` cell is "joy" and whose `top_score` cell
renders 0.91. -/
theorem predictAction_promotion_scenario (now c : List Char) :
    predictAction (fun _ => scenarioScores) ("I got a promotion today!".data)
        ("English (fast)".data) now (some c)
      = (some (c ++ csvRow (rowFields now ("I got a promotion today!".data)
          ("English (fast)".data) ("joy".data) (mkRat 91 100) scenarioScores)),
         PredictOutcome.success ("😄".data) ⟨"joy".data, mkRat 91 100⟩
           [⟨"joy".data, mkRat 91 100⟩, ⟨"surprise".data, mkRat 5 100⟩,
            ⟨"neutral".data, mkRat 2 100⟩])
    ∧ decToString (mkRat 91 100) = ("0.91".data)
    ∧ (rowFields now ("I got a promotion today!".data) ("English (fast)".data)
        ("joy".data) (mkRat 91 100) scenarioScores).get? 3 = some ("joy".data) := by
  have hsorted : preds_sorted scenarioScores = scenarioScores := by
    apply List.mergeSort_of_sorted
    decide
  refine ⟨?_, by decide, rfl⟩
  have hhead : (top3Of scenarioScores).head? = some ⟨"joy".data, mkRat 91 100⟩ := by
    simp only [top3Of]
    rw [hsorted]
    rfl
  simp only [predictAction]
  rw [if_neg (by decide), hhead]
  simp only [top3Of]
  rw [hsorted]
  rfl

/-- C1: round-trip of the prediction log — writing a row with
`save_prediction` (creating the file, or appending to any log this
program wrote) and CSV-parsing the file back yields a final row whose
`top_label` cell equals the original top label, whose `top_score` cell
parses back to the original top score, and whose `all_scores` cell,
JSON-decoded, reconstructs the original ranked score list. -/
theorem save_prediction_roundtrip
    (file : Option (List Char)) (now text lang top_label : List Char)
    (top_score : ℚ) (all_scores : List ScoreItem)
    (hfile : ∀ b, file = some b → WellFormedLog b)
    (hts : isDec top_score = true)
    (hsc : ∀ p ∈ all_scores, isDec p.score = true) :
    ∃ prior : List (List (List Char)),
      parseCsv (save_prediction now text lang top_label top_score all_scores file)
        = some (headerFields :: (prior
            ++ [[now, text, lang, top_label,
                 decToString top_score, jsonScores all_scores]]))
      ∧ parseNumAll (decToString top_score) = some top_score
      ∧ parseScores (jsonScores all_scores) = some all_scores := by
  have hnum : parseNumAll (decToString top_score) = some top_score := by
    have h := parseNumChars_decToString top_score hts []
      (by intro c hc; simp at hc)
    rw [List.append_nil] at h
    simp only [parseNumAll]
    rw [h]
  have hjson : parseScores (jsonScores all_scores) = some all_scores :=
    parseScores_jsonScores all_scores hsc
  have hrowne : ([now, text, lang, top_label,
      decToString top_score, jsonScores all_scores] : List (List Char)) ≠ [] := by
    simp
  cases file with
  | none =>
    refine ⟨[], ?_, hnum, hjson⟩
    have hshape : save_prediction now text lang top_label top_score all_scores none
        = csvLines [headerFields,
            [now, text, lang, top_label, decToString top_score, jsonScores all_scores]] := by
      rw [csvLines_cons, csvLines_cons, csvLines_nil, List.append_nil]
      rfl
    rw [hshape, parseCsv_csvLines]
    · simp
    · intro r hr
      rcases List.mem_cons.mp hr with h | h
      · subst h
        simp [headerFields]
      · simp at h
        subst h
        exact hrowne
  | some b =>
    obtain ⟨rows, hne, hb⟩ := hfile b rfl
    refine ⟨rows, ?_, hnum, hjson⟩
    have hshape : save_prediction now text lang top_label top_score all_scores (some b)
        = csvLines ((headerFields :: rows)
            ++ [[now, text, lang, top_label,
                 decToString top_score, jsonScores all_scores]]) := by
      show b ++ csvRow _ = _
      rw [hb, csvLines_append]
      congr 1
      rw [csvLines_cons, csvLines_nil, List.append_nil]
      rfl
    rw [hshape, parseCsv_csvLines]
    · rw [List.cons_append]
    · intro r hr
      rcases List.mem_cons.mp hr with h | h
      · subst h
        simp [headerFields]
      · rcases List.mem_append.mp h with h3 | h3
        · exact hne r h3
        · simp at h3
          subst h3
          exact hrowne

/-- Witness for C1: creating the log with one concrete row (the text
contains a comma) and reading it back reproduces the row. -/
theorem save_prediction_roundtrip_witness :
    ∃ prior : List (List (List Char)),
      parseCsv (save_prediction ("2024-01-01T00:00:00".data) ("so happy, truly".data)
          ("English (fast)".data) ("joy".data) (mkRat 91 100) scenarioScores none)
        = some (headerFields :: (prior
            ++ [[("2024-01-01T00:00:00".data), ("so happy, truly".data),
                 ("English (fast)".data), ("joy".data),
                 decToString (mkRat 91 100), jsonScores scenarioScores]]))
      ∧ parseNumAll (decToString (mkRat 91 100)) = some (mkRat 91 100)
      ∧ parseScores (jsonScores scenarioScores) = some scenarioScores :=
  save_prediction_roundtrip none ("2024-01-01T00:00:00".data) ("so happy, truly".data)
    ("English (fast)".data) ("joy".data) (mkRat 91 100) scenarioScores
    (fun b h => nomatch h) (by decide) (by decide)
